import Mathlib

/-!
Shallow embedding of `plugins/jenkins-backend/src/service/jenkinsInfoProvider.ts`
(class `DefaultJenkinsInfoProvider`).

The external collaborators (the catalog client and the hierarchical `Config`
reader) are modelled by their contracts as stated in the specification:
a catalog is a function from an entity reference to an optional entity, and
a config node exposes `getString` (fails when the field is missing or empty),
`getOptionalString` (returns the raw optional field) and `getConfigArray`
(absent array is the empty sequence).  JavaScript string truthiness (the
empty string is falsy) is modelled explicitly wherever the source relies
on it (`!jenkinsAndJobName`, `!jenkinsName`, `x || y`, `!baseUrl`, ...).
Failures are modelled with `Except JenkinsError`.
-/

namespace Jenkins

/-- A config node as used by the provider: the fields it may read via
`getString`/`getOptionalString`.  `none` is an absent field; `some ""` is a
present-but-empty field (falsy in JavaScript, and rejected by `getString`). -/
structure ConfigNode where
  name : Option String := none
  baseUrl : Option String := none
  username : Option String := none
  apiKey : Option String := none
deriving DecidableEq, Repr

/-- The subtree under the root key `jenkins`: optional flat connection fields
on the node itself, plus the `instances` array (an absent array is modelled
as `[]`, matching the `getConfigArray` contract). -/
structure JenkinsNode where
  node : ConfigNode := {}
  instances : List ConfigNode := []
deriving DecidableEq, Repr

/-- The root configuration: `getConfig("jenkins")` fails when the subtree
is absent. -/
structure RootConfig where
  jenkins : Option JenkinsNode := none
deriving DecidableEq, Repr

/-- `entity.metadata` — only `annotations` is read by the provider.
`annotations` is an optional association list (JavaScript object). -/
structure EntityMetadata where
  annotations : Option (List (String × String)) := none
deriving DecidableEq, Repr

/-- A catalog entity, restricted to the parts the provider reads. -/
structure Entity where
  metadata : EntityMetadata := {}
deriving DecidableEq, Repr

/-- The errors thrown by `getInstance` / `getInstanceConfig` and by the
config reader collaborator. -/
inductive JenkinsError where
  | EntityNotFound (ref : String)
  | AnnotationMissing (ref : String)
  | ConfigMissing (key : String)
  | ConfigFieldMissing (key : String)
  | NoDefaultInstance
  | NamedInstanceNotFound (name : String)
deriving DecidableEq, Repr

/-- The result record `JenkinsInfo { baseUrl, headers, jobName }`; the
headers bag is a mapping of header names to values. -/
structure JenkinsInfo where
  baseUrl : String
  headers : List (String × String)
  jobName : String
deriving DecidableEq, Repr

/-- `Config.getString(key)`: fails when the field is missing or empty. -/
def getStr (key : String) (o : Option String) : Except JenkinsError String :=
  match o with
  | none => .error (.ConfigFieldMissing key)
  | some s => if s = "" then .error (.ConfigFieldMissing key) else .ok s

/-- JavaScript truthiness of an optional string: `undefined` and `""` are
falsy. -/
def strTruthy (o : Option String) : Bool :=
  match o with
  | none => false
  | some s => s != ""

/-- JavaScript `a || b` on optional strings (`undefined` and `""` are
falsy, so they fall through to `b`). -/
def jsOrStr (a b : Option String) : Option String :=
  match a with
  | none => b
  | some s => if s = "" then b else some s

/-- `entity.metadata.annotations?.[key]` — lookup in the annotation object,
`none` when the object or the key is absent. -/
def annLookup (e : Entity) (key : String) : Option String :=
  match e.metadata.annotations with
  | none => none
  | some l => l.lookup key

/-- `DefaultJenkinsInfoProvider.OLD_JENKINS_ANNOTATION`. -/
def OLD_JENKINS_ANN : String := "jenkins.io/github-folder"

/-- `DefaultJenkinsInfoProvider.NEW_JENKINS_ANNOTATION`. -/
def NEW_JENKINS_ANN : String := "jenkins.io/job-slug"

/-- `getEntityAnnotationValue`: `annotations?.[OLD] || annotations?.[NEW]`
with JavaScript `||` semantics. -/
def getEntityAnnotationValue (e : Entity) : Option String :=
  jsOrStr (annLookup e OLD_JENKINS_ANN) (annLookup e NEW_JENKINS_ANN)

/-- Split a character list at its first `':'`: `none` when no colon occurs,
otherwise the characters before and after the first colon.  This models
`indexOf(':')` followed by the two `substring` calls. -/
def splitFirstColon : List Char → Option (List Char × List Char)
  | [] => none
  | c :: rest =>
    if c = ':' then some ([], rest)
    else (splitFirstColon rest).map (fun p => (c :: p.1, p.2))

/-- Lines 97–110 of the source: parse `[jenkinsName:]jobName` out of the
annotation value.  Returns `(jenkinsName?, jobName)`. -/
def parseAnnotationValue (v : String) : Option String × String :=
  match splitFirstColon v.data with
  | none => (none, v)
  | some (pre, post) => (some (String.mk pre), String.mk post)

/-- The filter `instances.filter(c => c.getString('name') === target)`:
JavaScript `Array.filter` evaluates the predicate on every element, so a
missing/empty `name` anywhere in the array throws even if a match was
already found. -/
def filterByName : List ConfigNode → String → Except JenkinsError (List ConfigNode)
  | [], _ => .ok []
  | c :: rest, target =>
    match getStr "name" c.name with
    | .error e => .error e
    | .ok n =>
      match filterByName rest target with
      | .error e => .error e
      | .ok tail => .ok (if n = target then c :: tail else tail)

/-- Lines 153–176: the default branch of `getInstanceConfig` — first the
entry named `"default"` in `instances`, then the flat fields on the
`jenkins` node, then the `NoDefaultInstance` error. -/
def defaultInstanceLookup (j : JenkinsNode) : Except JenkinsError ConfigNode :=
  match filterByName j.instances "default" with
  | .error e => .error e
  | .ok found =>
    match found.head? with
    | some c => .ok c
    | none =>
      if strTruthy j.node.baseUrl && strTruthy j.node.username
          && strTruthy j.node.apiKey then
        .ok j.node
      else
        .error .NoDefaultInstance

/-- Lines 178–189: the named branch of `getInstanceConfig`. -/
def namedInstanceLookup (n : String) (j : JenkinsNode) : Except JenkinsError ConfigNode :=
  match filterByName j.instances n with
  | .error e => .error e
  | .ok found =>
    match found.head? with
    | some c => .ok c
    | none => .error (.NamedInstanceNotFound n)

/-- The branch condition of `getInstanceConfig`:
`!jenkinsName || jenkinsName === 'default'` selects the default branch,
so the named branch runs exactly when the name is present, non-empty and
different from `"default"`. -/
def takesNamedPath (jenkinsName : Option String) : Bool :=
  match jenkinsName with
  | none => false
  | some n => !(n == "" || n == "default")

/-- `DefaultJenkinsInfoProvider.getInstanceConfig`. -/
def getInstanceConfig (jenkinsName : Option String) (rc : RootConfig) :
    Except JenkinsError ConfigNode :=
  match rc.jenkins with
  | none => .error (.ConfigMissing "jenkins")
  | some j =>
    match jenkinsName with
    | none => defaultInstanceLookup j
    | some n =>
      if n = "" ∨ n = "default" then defaultInstanceLookup j
      else namedInstanceLookup n j

/-- `Buffer.from(s, 'binary')`: each UTF-16 code unit truncated to its low
8 bits; for scalar values this is the code point modulo 256. -/
def binaryBytes (s : String) : List Nat :=
  s.data.map (fun c => c.toNat % 256)

/-- The base64 alphabet. -/
def base64Chars : List Char :=
  "ABCDEFGHIJKLMNOPQRSTUVWXYZabcdefghijklmnopqrstuvwxyz0123456789+/".data

/-- The base64 digit for a 6-bit value. -/
def b64c (n : Nat) : Char := base64Chars.getD n 'A'

/-- The 6-bit value of a base64 digit. -/
def b64v (c : Char) : Nat := base64Chars.indexOf c

/-- Standard padded base64 of a byte sequence (what
`Buffer.toString('base64')` produces). -/
def base64Encode : List Nat → List Char
  | [] => []
  | [a] => [b64c (a / 4), b64c (a % 4 * 16), '=', '=']
  | [a, b] => [b64c (a / 4), b64c (a % 4 * 16 + b / 16), b64c (b % 16 * 4), '=']
  | a :: b :: c :: rest =>
    b64c (a / 4) :: b64c (a % 4 * 16 + b / 16) :: b64c (b % 16 * 4 + c / 64)
      :: b64c (c % 64) :: base64Encode rest

/-- Base64 decoding of a padded digit string back to bytes. -/
def base64Decode : List Char → List Nat
  | c1 :: c2 :: c3 :: c4 :: rest =>
    if c3 = '=' then [b64v c1 * 4 + b64v c2 / 16]
    else if c4 = '=' then
      [b64v c1 * 4 + b64v c2 / 16, b64v c2 % 16 * 16 + b64v c3 / 4]
    else
      (b64v c1 * 4 + b64v c2 / 16) :: (b64v c2 % 16 * 16 + b64v c3 / 4)
        :: (b64v c3 % 4 * 64 + b64v c4) :: base64Decode rest
  | _ => []

/-- Lines 121–123: the Basic credentials string
`Buffer.from(username + ':' + apiKey, 'binary').toString('base64')`. -/
def basicCreds (username apiKey : String) : String :=
  String.mk (base64Encode (binaryBytes (username ++ ":" ++ apiKey)))

/-- Decode a Latin-1 byte sequence back into a string. -/
def latin1Decode (l : List Nat) : String :=
  String.mk (l.map Char.ofNat)

/-- Base64-decode a credentials string and split the bytes at the first
colon byte (58), decoding both halves as Latin-1. -/
def recoverFromCreds (creds : String) : String × String :=
  let bytes := base64Decode creds.data
  (latin1Decode (bytes.takeWhile (fun x => x != 58)),
   latin1Decode ((bytes.dropWhile (fun x => x != 58)).tail))

/-- Lines 112–131 of `getInstance`: everything after the annotation value
has been obtained and found truthy. -/
def resolveFromValue (rc : RootConfig) (v : String) : Except JenkinsError JenkinsInfo :=
  let p := parseAnnotationValue v
  match getInstanceConfig p.1 rc with
  | .error e => .error e
  | .ok node =>
    match getStr "baseUrl" node.baseUrl with
    | .error e => .error e
    | .ok baseUrl =>
      match getStr "username" node.username with
      | .error e => .error e
      | .ok username =>
        match getStr "apiKey" node.apiKey with
        | .error e => .error e
        | .ok apiKey =>
          .ok { baseUrl := baseUrl,
                headers := [("Authorization", "Basic " ++ basicCreds username apiKey)],
                jobName := p.2 }

/-- `DefaultJenkinsInfoProvider.getInstance`.  The catalog collaborator is
a function from the (stringified) entity reference to an optional entity.
`jobNameOpt` is the `jobName` option of the call. -/
def getInstance (catalog : String → Option Entity) (rc : RootConfig)
    (entityRef : String) (_jobNameOpt : Option String) :
    Except JenkinsError JenkinsInfo :=
  match catalog entityRef with
  | none => .error (.EntityNotFound entityRef)
  | some entity =>
    match getEntityAnnotationValue entity with
    | none => .error (.AnnotationMissing entityRef)
    | some v =>
      if v = "" then .error (.AnnotationMissing entityRef)
      else resolveFromValue rc v

/-- The job name a call would derive from the entity annotation alone
(`none` when the call cannot reach the parse step). -/
def annotationJobName (catalog : String → Option Entity) (entityRef : String) :
    Option String :=
  match catalog entityRef with
  | none => none
  | some entity =>
    match getEntityAnnotationValue entity with
    | none => none
    | some v => if v = "" then none else some (parseAnnotationValue v).2

/-- Whether a config entry would pass `getString("name")`. -/
def hasName (c : ConfigNode) : Bool :=
  match c.name with
  | none => false
  | some s => s != ""

/-- The name that `getInstanceConfig` looks up in the `instances` array for
a given parsed identity. -/
def lookupTarget (jenkinsName : Option String) : String :=
  match jenkinsName with
  | none => "default"
  | some n => if n = "" ∨ n = "default" then "default" else n

/-- Extract the `jobName` of a successful result. -/
def okJobName (r : Except JenkinsError JenkinsInfo) : Option String :=
  match r with
  | .ok i => some i.jobName
  | .error _ => none


/-- Decidable equality of `Except` results, for concrete evaluation. -/
instance {e a : Type} [DecidableEq e] [DecidableEq a] : DecidableEq (Except e a) :=
  fun x y =>
    match x, y with
    | .error e1, .error e2 =>
      if h : e1 = e2 then isTrue (h ▸ rfl)
      else isFalse (fun hh => h (Except.error.inj hh))
    | .error _, .ok _ => isFalse (fun hh => Except.noConfusion hh)
    | .ok _, .error _ => isFalse (fun hh => Except.noConfusion hh)
    | .ok a1, .ok a2 =>
      if h : a1 = a2 then isTrue (h ▸ rfl)
      else isFalse (fun hh => h (Except.ok.inj hh))

/-! ## Concrete fixtures used by witnesses and counterexamples -/

/-- An instance entry named `"default"`. -/
def nodeD : ConfigNode :=
  { name := some "default", baseUrl := some "https://d/",
    username := some "du", apiKey := some "dk" }

/-- An instance entry named `"n1"`. -/
def nodeN1 : ConfigNode :=
  { name := some "n1", baseUrl := some "https://n1/",
    username := some "u1", apiKey := some "k1" }

/-- An instance entry with no `name` field. -/
def nodeNoName : ConfigNode :=
  { baseUrl := some "https://x/", username := some "xu", apiKey := some "xk" }

/-- First of two entries sharing the name `"dup"`. -/
def nodeDupA : ConfigNode :=
  { name := some "dup", baseUrl := some "https://a/",
    username := some "ua", apiKey := some "ka" }

/-- Second of two entries sharing the name `"dup"`. -/
def nodeDupB : ConfigNode :=
  { name := some "dup", baseUrl := some "https://b/",
    username := some "ub", apiKey := some "kb" }

/-- Jenkins subtree with a single `"default"` instance. -/
def jnC1w : JenkinsNode := { instances := [nodeD] }

/-- Root config for the C1 witness. -/
def rcC1w : RootConfig := { jenkins := some jnC1w }

/-- Jenkins subtree whose array holds a `"default"` entry and a nameless
entry. -/
def jnC1bad : JenkinsNode := { instances := [nodeD, nodeNoName] }

/-- Root config for the C1 counterexample and the C10 witness. -/
def rcC1bad : RootConfig := { jenkins := some jnC1bad }

/-- Entity carrying only the current annotation with value `"somejob"`. -/
def entJobOnly : Entity :=
  { metadata := { annotations := some [("jenkins.io/job-slug", "somejob")] } }

/-- Catalog that resolves every reference to `entJobOnly`. -/
def catJobOnly : String → Option Entity := fun _ => some entJobOnly

/-- Entity carrying only the current annotation with value `"x:job"`. -/
def entNamedX : Entity :=
  { metadata := { annotations := some [("jenkins.io/job-slug", "x:job")] } }

/-- Catalog that resolves every reference to `entNamedX`. -/
def catNamedX : String → Option Entity := fun _ => some entNamedX

/-- Jenkins subtree with a single named instance `"n1"`. -/
def jnC2w : JenkinsNode := { instances := [nodeN1] }

/-- Root config for the C2 witness. -/
def rcC2w : RootConfig := { jenkins := some jnC2w }

/-- Jenkins subtree whose array holds only a nameless entry. -/
def jnC2bad : JenkinsNode := { instances := [nodeNoName] }

/-- Root config for the C2 counterexample. -/
def rcC2bad : RootConfig := { jenkins := some jnC2bad }

/-- Jenkins subtree with two instances both named `"dup"`. -/
def jnC9w : JenkinsNode := { instances := [nodeDupA, nodeDupB] }

/-- Root config for the C9 witness. -/
def rcC9w : RootConfig := { jenkins := some jnC9w }

/-- Jenkins subtree with two `"dup"` entries followed by a nameless
entry. -/
def jnC9bad : JenkinsNode := { instances := [nodeDupA, nodeDupB, nodeNoName] }

/-- Root config for the C9 counterexample. -/
def rcC9bad : RootConfig := { jenkins := some jnC9bad }

/-- Entity carrying both annotations: legacy `"o:j"`, current `"n:j"`. -/
def entBoth : Entity :=
  { metadata := { annotations := some [("jenkins.io/github-folder", "o:j"), ("jenkins.io/job-slug", "n:j")] } }

/-- Catalog that resolves every reference to `entBoth`. -/
def catBoth : String → Option Entity := fun _ => some entBoth

/-- Entity whose legacy annotation is present but empty, current absent. -/
def entOldEmpty : Entity :=
  { metadata := { annotations := some [("jenkins.io/github-folder", "")] } }

/-- Catalog that resolves every reference to `entOldEmpty`. -/
def catOldEmpty : String → Option Entity := fun _ => some entOldEmpty

/-- Entity with an empty legacy annotation and a non-empty current one. -/
def entOldEmptyBoth : Entity :=
  { metadata := { annotations := some [("jenkins.io/github-folder", ""), ("jenkins.io/job-slug", "n:j")] } }

/-- Jenkins subtree with flat fields only (no instances array). -/
def jnFlat : JenkinsNode :=
  { node := { baseUrl := some "https://f/", username := some "fu",
              apiKey := some "fk" } }

/-- Root config for the C7 counterexample. -/
def rcFlat : RootConfig := { jenkins := some jnFlat }

/-- Jenkins subtree whose flat username contains a colon. -/
def jnC4 : JenkinsNode :=
  { node := { baseUrl := some "https://c4/", username := some "a:b",
              apiKey := some "k" } }

/-- Root config for the C4 counterexample. -/
def rcC4 : RootConfig := { jenkins := some jnC4 }

/-! ## Lemmas about the annotation parse step -/

theorem splitFirstColon_eq_none (l : List Char) :
    splitFirstColon l = none ↔ ':' ∉ l := by
  induction l with
  | nil => simp [splitFirstColon]
  | cons c rest ih =>
    by_cases hc : c = ':'
    · subst hc
      simp [splitFirstColon]
    · cases hsp : splitFirstColon rest with
      | none =>
        simp [splitFirstColon, hc, hsp, Ne.symm hc, ih.mp hsp]
      | some p =>
        have : ':' ∈ rest := by
          by_contra hmem
          rw [ih.mpr hmem] at hsp
          exact Option.noConfusion hsp
        simp [splitFirstColon, hc, hsp, this]

theorem splitFirstColon_eq_some (l pre post : List Char)
    (h : splitFirstColon l = some (pre, post)) :
    pre ++ ':' :: post = l ∧ ':' ∉ pre := by
  induction l generalizing pre post with
  | nil => simp [splitFirstColon] at h
  | cons c rest ih =>
    by_cases hc : c = ':'
    · subst hc
      simp [splitFirstColon] at h
      obtain ⟨h1, h2⟩ := h
      subst h1; subst h2
      simp
    · rw [splitFirstColon, if_neg hc] at h
      cases hsp : splitFirstColon rest with
      | none =>
        rw [hsp] at h
        simp at h
      | some p =>
        rw [hsp] at h
        obtain ⟨p1, p2⟩ := p
        simp only [Option.map_some', Option.some.injEq, Prod.mk.injEq] at h
        obtain ⟨h1, h2⟩ := h
        subst h1; subst h2
        obtain ⟨ih1, ih2⟩ := ih p1 p2 hsp
        constructor
        · rw [List.cons_append, ih1]
        · intro hmem
          rcases List.mem_cons.mp hmem with hh | hh
          · exact hc hh.symm
          · exact ih2 hh

/-- Claim C5: for every annotation value containing exactly one colon, the
parse step splits at that colon into the instance identity (substring
before it) and the job name (substring after it), and re-joining them with
a colon reproduces the original value; for every annotation value with no
colon, the identity is absent and the job name is the whole value. -/
theorem C5_parse_split_round_trip (v : String) :
    (v.data.count ':' = 1 →
      ∃ pre, (parseAnnotationValue v).1 = some pre ∧
        pre ++ ":" ++ (parseAnnotationValue v).2 = v) ∧
    (v.data.count ':' = 0 →
      (parseAnnotationValue v).1 = none ∧ (parseAnnotationValue v).2 = v) := by
  constructor
  · intro h1
    have hmem : ':' ∈ v.data := by
      have : 0 < v.data.count ':' := by omega
      exact List.count_pos_iff.mp this
    cases hsp : splitFirstColon v.data with
    | none =>
      exact absurd hmem ((splitFirstColon_eq_none v.data).mp hsp)
    | some p =>
      obtain ⟨pre, post⟩ := p
      obtain ⟨heq, -⟩ := splitFirstColon_eq_some v.data pre post hsp
      refine ⟨String.mk pre, ?_, ?_⟩
      · simp [parseAnnotationValue, hsp]
      · simp only [parseAnnotationValue, hsp]
        apply String.ext
        rw [String.data_append, String.data_append]
        show pre ++ [':'] ++ post = v.data
        simpa using heq
  · intro h0
    have hmem : ':' ∉ v.data := by
      intro hmem
      have := List.count_pos_iff.mpr hmem
      omega
    have hsp := (splitFirstColon_eq_none v.data).mpr hmem
    constructor
    · simp [parseAnnotationValue, hsp]
    · simp [parseAnnotationValue, hsp]

/-- Witness for C5 at the values `"a:b"` (one colon) and `"b"` (none). -/
theorem C5_parse_split_round_trip_witness :
    (("a:b".data.count ':' = 1) ∧
      (∃ pre, (parseAnnotationValue "a:b").1 = some pre ∧
        pre ++ ":" ++ (parseAnnotationValue "a:b").2 = "a:b")) ∧
    (("b".data.count ':' = 0) ∧
      ((parseAnnotationValue "b").1 = none ∧ (parseAnnotationValue "b").2 = "b")) :=
  ⟨⟨by decide, (C5_parse_split_round_trip "a:b").1 (by decide)⟩,
   ⟨by decide, (C5_parse_split_round_trip "b").2 (by decide)⟩⟩

/-! ## Lemmas about the instances filter -/

theorem getStr_error (key : String) (o : Option String) (e : JenkinsError)
    (h : getStr key o = .error e) : e = .ConfigFieldMissing key := by
  cases o with
  | none =>
    simp [getStr] at h
    exact h.symm
  | some s =>
    by_cases hs : s = ""
    · simp [getStr, hs] at h
      exact h.symm
    · simp [getStr, hs] at h

theorem getStr_ok (key : String) (o : Option String) (s : String)
    (h : getStr key o = .ok s) : o = some s ∧ s ≠ "" := by
  cases o with
  | none => simp [getStr] at h
  | some t =>
    by_cases ht : t = ""
    · simp [getStr, ht] at h
    · simp [getStr, ht] at h
      subst h
      exact ⟨rfl, ht⟩

theorem filterByName_wf (l : List ConfigNode) (t : String)
    (h : ∀ c ∈ l, hasName c = true) :
    filterByName l t = .ok (l.filter (fun c => c.name == some t)) := by
  induction l with
  | nil => simp [filterByName]
  | cons c rest ih =>
    have hc := h c (List.mem_cons_self c rest)
    obtain ⟨s, hs, hne⟩ : ∃ s, c.name = some s ∧ s ≠ "" := by
      cases hn : c.name with
      | none => simp [hasName, hn] at hc
      | some s =>
        refine ⟨s, rfl, ?_⟩
        simpa [hasName, hn] using hc
    rw [filterByName, hs]
    simp only [getStr, if_neg hne]
    rw [ih (fun d hd => h d (List.mem_cons_of_mem c hd))]
    simp only [List.filter_cons, hs]
    by_cases hst : s = t
    · subst hst
      simp
    · simp [hst, Ne.symm, beq_iff_eq]

theorem filterByName_bad (l : List ConfigNode) (t : String) (e : ConfigNode)
    (he : e ∈ l) (hbad : hasName e = false) :
    filterByName l t = .error (.ConfigFieldMissing "name") := by
  induction l with
  | nil => cases he
  | cons c rest ih =>
    rcases List.mem_cons.mp he with rfl | hmem
    · cases hn : e.name with
      | none => simp [filterByName, getStr, hn]
      | some s =>
        have hs : s = "" := by simpa [hasName, hn] using hbad
        subst hs
        simp [filterByName, getStr, hn]
    · rw [filterByName]
      cases hg : getStr "name" c.name with
      | error err =>
        rw [getStr_error "name" c.name err hg]
      | ok n =>
        rw [ih hmem]

theorem head_filter_eq_find (p : ConfigNode → Bool) (l : List ConfigNode) :
    (l.filter p).head? = l.find? p := by
  induction l with
  | nil => simp
  | cons c rest ih =>
    by_cases hc : p c
    · simp [List.filter_cons, List.find?_cons, hc]
    · simp only [List.filter_cons, List.find?_cons]
      rw [if_neg hc]
      cases hpc : p c with
      | true => exact absurd hpc hc
      | false => exact ih

/-! ## Characterizations of the two lookup branches -/

theorem defaultLookup_eq (j : JenkinsNode)
    (hwf : ∀ c ∈ j.instances, hasName c = true) :
    defaultInstanceLookup j =
      match j.instances.find? (fun c => c.name == some "default") with
      | some c => .ok c
      | none =>
        if strTruthy j.node.baseUrl && strTruthy j.node.username
            && strTruthy j.node.apiKey then
          .ok j.node
        else .error .NoDefaultInstance := by
  unfold defaultInstanceLookup
  simp only [filterByName_wf _ _ hwf, head_filter_eq_find]

theorem namedLookup_eq (n : String) (j : JenkinsNode)
    (hwf : ∀ c ∈ j.instances, hasName c = true) :
    namedInstanceLookup n j =
      match j.instances.find? (fun c => c.name == some n) with
      | some c => .ok c
      | none => .error (.NamedInstanceNotFound n) := by
  unfold namedInstanceLookup
  simp only [filterByName_wf _ _ hwf, head_filter_eq_find]

/-- Claim C1 (amended): for every call in which the parsed instance
identity is absent or equals `"default"`, and in which every entry of the
`jenkins.instances` array has a non-empty `name` string, settings are
resolved in this order: the first array entry named `"default"` if one
exists, else the `jenkins` node itself when its three optional fields
`baseUrl`, `username`, `apiKey` are all present and non-empty, else the
`NoDefaultInstance` failure. -/
theorem C1_default_resolution_order (rc : RootConfig) (j : JenkinsNode)
    (idOpt : Option String) (hj : rc.jenkins = some j)
    (hid : idOpt = none ∨ idOpt = some "default")
    (hwf : j.instances.all hasName = true) :
    getInstanceConfig idOpt rc =
      match j.instances.find? (fun c => c.name == some "default") with
      | some c => .ok c
      | none =>
        if strTruthy j.node.baseUrl && strTruthy j.node.username
            && strTruthy j.node.apiKey then
          .ok j.node
        else .error .NoDefaultInstance := by
  have hwf2 : ∀ c ∈ j.instances, hasName c = true :=
    fun c hc => by simpa using List.all_eq_true.mp hwf c hc
  rcases hid with rfl | rfl
  · simp only [getInstanceConfig, hj]
    exact defaultLookup_eq j hwf2
  · simp only [getInstanceConfig, hj, or_true, if_true]
    exact defaultLookup_eq j hwf2

/-- Witness for C1: the `"default"` entry of a well-formed array is
returned. -/
theorem C1_default_resolution_order_witness :
    (rcC1w.jenkins = some jnC1w) ∧ (jnC1w.instances.all hasName = true) ∧
    getInstanceConfig none rcC1w = .ok nodeD := by
  refine ⟨rfl, by decide, ?_⟩
  rw [C1_default_resolution_order rcC1w jnC1w none rfl (Or.inl rfl) (by decide)]
  decide

/-- Counterexample for C1 as stated: the array contains an entry named
`"default"`, the parsed identity is absent, yet the call does not return
that entry — it fails on the nameless sibling entry, because
`Array.filter` reads `getString("name")` of every entry. -/
theorem C1_default_resolution_order_counterexample :
    (parseAnnotationValue "somejob").1 = none ∧
    nodeD ∈ jnC1bad.instances ∧ nodeD.name = some "default" ∧
    getInstance catJobOnly rcC1bad "r" none =
      .error (.ConfigFieldMissing "name") := by
  refine ⟨by decide, by decide, by decide, by decide⟩

/-- Claim C2 (amended): for every call whose parsed identity is present,
non-empty and not `"default"`, and in which every entry of the
`jenkins.instances` array has a non-empty `name` string, resolution
returns the first entry whose name equals the identity, and fails with
`NamedInstanceNotFound identity` exactly when no such entry exists. -/
theorem C2_named_resolution (rc : RootConfig) (j : JenkinsNode) (n : String)
    (hj : rc.jenkins = some j) (hne : n ≠ "") (hnd : n ≠ "default")
    (hwf : j.instances.all hasName = true) :
    getInstanceConfig (some n) rc =
      match j.instances.find? (fun c => c.name == some n) with
      | some c => .ok c
      | none => .error (.NamedInstanceNotFound n) := by
  have hwf2 : ∀ c ∈ j.instances, hasName c = true :=
    fun c hc => by simpa using List.all_eq_true.mp hwf c hc
  simp only [getInstanceConfig, hj]
  rw [if_neg (by simp [hne, hnd])]
  exact namedLookup_eq n j hwf2

/-- Witness for C2: the entry named `"n1"` is found, and a missing name
fails with `NamedInstanceNotFound`. -/
theorem C2_named_resolution_witness :
    (rcC2w.jenkins = some jnC2w) ∧ ("n1" ≠ "") ∧ ("n1" ≠ "default") ∧
    (jnC2w.instances.all hasName = true) ∧
    getInstanceConfig (some "n1") rcC2w = .ok nodeN1 := by
  refine ⟨rfl, by decide, by decide, by decide, ?_⟩
  rw [C2_named_resolution rcC2w jnC2w "n1" rfl (by decide) (by decide) (by decide)]
  decide

/-- Counterexample for C2 as stated: no entry named `"x"` exists, so the
claim requires the `NamedInstanceNotFound "x"` failure, but the call fails
reading the nameless entry instead. -/
theorem C2_named_resolution_counterexample :
    (parseAnnotationValue "x:job").1 = some "x" ∧
    (jnC2bad.instances.all (fun c => c.name != some "x") = true) ∧
    getInstance catNamedX rcC2bad "r" none =
      .error (.ConfigFieldMissing "name") := by
  refine ⟨by decide, by decide, by decide⟩

/-- Claim C9 (amended): when the `instances` array holds more than one
entry with the looked-up name (the default or a requested one), provided
every entry of the array has a non-empty `name` string, the earliest
matching entry in array order is returned (its `baseUrl`, `username`,
`apiKey` are then the ones read by `getInstance`). -/
theorem C9_earliest_duplicate_used (rc : RootConfig) (j : JenkinsNode)
    (idOpt : Option String) (l1 l2 : List ConfigNode) (c c2 : ConfigNode)
    (hj : rc.jenkins = some j)
    (hwf : j.instances.all hasName = true)
    (hsplit : j.instances = l1 ++ c :: l2)
    (hearly : l1.all (fun d => d.name != some (lookupTarget idOpt)) = true)
    (hc : c.name = some (lookupTarget idOpt))
    (_hc2 : c2 ∈ l2) (hdup : c2.name = some (lookupTarget idOpt)) :
    getInstanceConfig idOpt rc = .ok c := by
  have hwf2 : ∀ d ∈ j.instances, hasName d = true :=
    fun d hd => by simpa using List.all_eq_true.mp hwf d hd
  have hfind : j.instances.find? (fun d => d.name == some (lookupTarget idOpt))
      = some c := by
    rw [hsplit, List.find?_append]
    have h1 : l1.find? (fun d => d.name == some (lookupTarget idOpt)) = none := by
      rw [List.find?_eq_none]
      intro x hx
      simpa using List.all_eq_true.mp hearly x hx
    rw [h1]
    simp [List.find?_cons, hc]
  cases idOpt with
  | none =>
    simp only [getInstanceConfig, hj]
    rw [defaultLookup_eq j hwf2]
    have ht : lookupTarget none = "default" := rfl
    rw [ht] at hfind
    simp [hfind]
  | some n =>
    by_cases hn : n = "" ∨ n = "default"
    · simp only [getInstanceConfig, hj]
      rw [if_pos hn]
      rw [defaultLookup_eq j hwf2]
      have ht : lookupTarget (some n) = "default" := by simp [lookupTarget, hn]
      rw [ht] at hfind
      simp [hfind]
    · simp only [getInstanceConfig, hj]
      rw [if_neg hn]
      rw [namedLookup_eq n j hwf2]
      have ht : lookupTarget (some n) = n := by simp [lookupTarget, hn]
      rw [ht] at hfind
      simp [hfind]

/-- Witness for C9: two entries named `"dup"`; the first one is returned. -/
theorem C9_earliest_duplicate_used_witness :
    (rcC9w.jenkins = some jnC9w) ∧ (jnC9w.instances.all hasName = true) ∧
    (jnC9w.instances = [] ++ nodeDupA :: [nodeDupB]) ∧
    (([] : List ConfigNode).all (fun d => d.name != some (lookupTarget (some "dup"))) = true) ∧
    (nodeDupA.name = some (lookupTarget (some "dup"))) ∧
    (nodeDupB ∈ [nodeDupB]) ∧
    (nodeDupB.name = some (lookupTarget (some "dup"))) ∧
    getInstanceConfig (some "dup") rcC9w = .ok nodeDupA := by
  refine ⟨rfl, by decide, by decide, by decide, by decide, by decide, by decide, ?_⟩
  exact C9_earliest_duplicate_used rcC9w jnC9w (some "dup") [] [nodeDupB]
    nodeDupA nodeDupB rfl (by decide) (by decide) (by decide) (by decide)
    (by decide) (by decide)

/-- Counterexample for C9 as stated: the array holds two entries named
`"dup"` (so the earliest, `nodeDupA`, should be returned), but a nameless
third entry makes the filter fail, so the lookup returns an error instead
of the earliest match. -/
theorem C9_earliest_duplicate_used_counterexample :
    (jnC9bad.instances = [nodeDupA, nodeDupB, nodeNoName]) ∧
    nodeDupA.name = some "dup" ∧ nodeDupB.name = some "dup" ∧
    getInstanceConfig (some "dup") rcC9bad =
      .error (.ConfigFieldMissing "name") ∧
    getInstanceConfig (some "dup") rcC9bad ≠ .ok nodeDupA := by
  refine ⟨by decide, by decide, by decide, by decide, by decide⟩

/-- Claim C10: whenever the `instances` array is consulted — on either
branch — every entry has `getString("name")` read before a match is
returned, so an entry with a missing or empty name makes the whole
resolution fail, whatever identity was looked up. -/
theorem C10_nameless_entry_fails (rc : RootConfig) (j : JenkinsNode)
    (idOpt : Option String) (e : ConfigNode) (hj : rc.jenkins = some j)
    (he : e ∈ j.instances) (hbad : hasName e = false) :
    getInstanceConfig idOpt rc = .error (.ConfigFieldMissing "name") := by
  cases idOpt with
  | none =>
    simp only [getInstanceConfig, hj]
    unfold defaultInstanceLookup
    rw [filterByName_bad j.instances "default" e he hbad]
  | some n =>
    simp only [getInstanceConfig, hj]
    by_cases hn : n = "" ∨ n = "default"
    · rw [if_pos hn]
      unfold defaultInstanceLookup
      rw [filterByName_bad j.instances "default" e he hbad]
    · rw [if_neg hn]
      unfold namedInstanceLookup
      rw [filterByName_bad j.instances n e he hbad]

/-- Witness for C10: the array holds a matching `"default"` entry and a
nameless entry; default resolution still fails. -/
theorem C10_nameless_entry_fails_witness :
    (rcC1bad.jenkins = some jnC1bad) ∧ (nodeNoName ∈ jnC1bad.instances) ∧
    (hasName nodeNoName = false) ∧
    getInstanceConfig none rcC1bad = .error (.ConfigFieldMissing "name") := by
  refine ⟨rfl, by decide, by decide, ?_⟩
  exact C10_nameless_entry_fails rcC1bad jnC1bad none nodeNoName rfl
    (by decide) (by decide)

/-! ## The resolver never raises AnnotationMissing -/

theorem filterByName_error (l : List ConfigNode) (t : String) (e : JenkinsError)
    (h : filterByName l t = .error e) : e = .ConfigFieldMissing "name" := by
  induction l with
  | nil => simp [filterByName] at h
  | cons c rest ih =>
    rw [filterByName] at h
    cases hg : getStr "name" c.name with
    | error err =>
      rw [hg] at h
      injection h with h1
      rw [h1] at hg
      exact getStr_error "name" c.name e hg
    | ok n =>
      rw [hg] at h
      cases hr : filterByName rest t with
      | error err =>
        rw [hr] at h
        injection h with h1
        rw [h1] at hr
        exact ih hr
      | ok tail =>
        rw [hr] at h
        simp at h

theorem defaultLookup_ne_annMissing (j : JenkinsNode) (r : String) :
    defaultInstanceLookup j ≠ .error (.AnnotationMissing r) := by
  unfold defaultInstanceLookup
  cases hf : filterByName j.instances "default" with
  | error e =>
    have he := filterByName_error _ _ _ hf
    subst he
    simp
  | ok found =>
    cases hh : found.head? with
    | some c => simp [hh]
    | none =>
      by_cases hb : (strTruthy j.node.baseUrl && strTruthy j.node.username
          && strTruthy j.node.apiKey) = true
      · simp [hh, hb]
      · simp [hh, hb]

theorem namedLookup_ne_annMissing (n : String) (j : JenkinsNode) (r : String) :
    namedInstanceLookup n j ≠ .error (.AnnotationMissing r) := by
  unfold namedInstanceLookup
  cases hf : filterByName j.instances n with
  | error e =>
    have he := filterByName_error _ _ _ hf
    subst he
    simp
  | ok found =>
    cases hh : found.head? with
    | some c => simp [hh]
    | none => simp [hh]

theorem getInstanceConfig_ne_annMissing (idOpt : Option String)
    (rc : RootConfig) (r : String) :
    getInstanceConfig idOpt rc ≠ .error (.AnnotationMissing r) := by
  cases hrc : rc.jenkins with
  | none => simp [getInstanceConfig, hrc]
  | some j =>
    cases idOpt with
    | none =>
      simp only [getInstanceConfig, hrc]
      exact defaultLookup_ne_annMissing j r
    | some n =>
      simp only [getInstanceConfig, hrc]
      by_cases hn : n = "" ∨ n = "default"
      · rw [if_pos hn]
        exact defaultLookup_ne_annMissing j r
      · rw [if_neg hn]
        exact namedLookup_ne_annMissing n j r

theorem resolveFromValue_ne_annMissing (rc : RootConfig) (v : String) (r : String) :
    resolveFromValue rc v ≠ .error (.AnnotationMissing r) := by
  cases hg : getInstanceConfig (parseAnnotationValue v).1 rc with
  | error e =>
    simp only [resolveFromValue, hg]
    intro hh
    injection hh with h1
    rw [h1] at hg
    exact getInstanceConfig_ne_annMissing _ _ _ hg
  | ok node =>
    simp only [resolveFromValue, hg]
    cases h1 : getStr "baseUrl" node.baseUrl with
    | error e1 =>
      have he := getStr_error _ _ _ h1
      subst he
      simp [h1]
    | ok b =>
      simp only [h1]
      cases h2 : getStr "username" node.username with
      | error e2 =>
        have he := getStr_error _ _ _ h2
        subst he
        simp [h2]
      | ok u =>
        simp only [h2]
        cases h3 : getStr "apiKey" node.apiKey with
        | error e3 =>
          have he := getStr_error _ _ _ h3
          subst he
          simp [h3]
        | ok k => simp [h3]

theorem resolveFromValue_ok_jobName (rc : RootConfig) (v : String)
    (info : JenkinsInfo) (h : resolveFromValue rc v = .ok info) :
    info.jobName = (parseAnnotationValue v).2 := by
  unfold resolveFromValue at h
  simp only [] at h
  cases hg : getInstanceConfig (parseAnnotationValue v).1 rc with
  | error e =>
    rw [hg] at h
    exact Except.noConfusion h
  | ok node =>
    rw [hg] at h
    simp only [] at h
    cases h1 : getStr "baseUrl" node.baseUrl with
    | error e1 =>
      rw [h1] at h
      exact Except.noConfusion h
    | ok b =>
      rw [h1] at h
      cases h2 : getStr "username" node.username with
      | error e2 =>
        rw [h2] at h
        exact Except.noConfusion h
      | ok u =>
        rw [h2] at h
        cases h3 : getStr "apiKey" node.apiKey with
        | error e3 =>
          rw [h3] at h
          exact Except.noConfusion h
        | ok k =>
          rw [h3] at h
          injection h with h4
          rw [← h4]

/-- Claim C3 (amended): `getInstance` fails with `AnnotationMissing` exactly
when neither the legacy key `jenkins.io/github-folder` nor the current key
`jenkins.io/job-slug` maps to a non-empty value (a present-but-empty value
is skipped by the JavaScript `||` chain and rejected by the truthiness
check); when at least one key has a non-empty value, the first such value,
legacy checked first, is the one parsed. -/
theorem C3_annotation_missing_iff (catalog : String → Option Entity)
    (rc : RootConfig) (ref : String) (jobOpt : Option String) (e : Entity)
    (hcat : catalog ref = some e) :
    ((getInstance catalog rc ref jobOpt = .error (.AnnotationMissing ref)) ↔
      ((∀ s, annLookup e OLD_JENKINS_ANN = some s → s = "") ∧
       (∀ s, annLookup e NEW_JENKINS_ANN = some s → s = ""))) ∧
    (∀ s, annLookup e OLD_JENKINS_ANN = some s → s ≠ "" →
      getInstance catalog rc ref jobOpt = resolveFromValue rc s) ∧
    (∀ s, (annLookup e OLD_JENKINS_ANN = none ∨ annLookup e OLD_JENKINS_ANN = some "") →
      annLookup e NEW_JENKINS_ANN = some s → s ≠ "" →
      getInstance catalog rc ref jobOpt = resolveFromValue rc s) := by
  rcases hO : annLookup e OLD_JENKINS_ANN with _ | sO
  · rcases hN : annLookup e NEW_JENKINS_ANN with _ | sN
    · have hv : getEntityAnnotationValue e = none := by
        simp [getEntityAnnotationValue, jsOrStr, hO, hN]
      have herr2 : getInstance catalog rc ref jobOpt = .error (.AnnotationMissing ref) := by
        simp [getInstance, hcat, hv]
      refine ⟨?_, ?_, ?_⟩
      · constructor
        · intro _
          exact ⟨fun s hs => Option.noConfusion hs,
                 fun s hs => Option.noConfusion hs⟩
        · intro _
          exact herr2
      · intro s hs hne
        exact Option.noConfusion hs
      · intro s hd hs hne
        exact Option.noConfusion hs
    · by_cases hsN : sN = ""
      · subst hsN
        have hv : getEntityAnnotationValue e = some "" := by
          simp [getEntityAnnotationValue, jsOrStr, hO, hN]
        have herr2 : getInstance catalog rc ref jobOpt = .error (.AnnotationMissing ref) := by
          simp [getInstance, hcat, hv]
        refine ⟨?_, ?_, ?_⟩
        · constructor
          · intro _
            exact ⟨fun s hs => Option.noConfusion hs,
                   fun s hs => (Option.some.inj hs).symm⟩
          · intro _
            exact herr2
        · intro s hs hne
          exact Option.noConfusion hs
        · intro s hd hs hne
          exact absurd (Option.some.inj hs).symm hne
      · have hv : getEntityAnnotationValue e = some sN := by
          simp [getEntityAnnotationValue, jsOrStr, hO, hN]
        have hgi : getInstance catalog rc ref jobOpt = resolveFromValue rc sN := by
          simp [getInstance, hcat, hv, hsN]
        refine ⟨?_, ?_, ?_⟩
        · constructor
          · intro herr
            rw [hgi] at herr
            exact absurd herr (resolveFromValue_ne_annMissing rc sN ref)
          · rintro ⟨-, h2⟩
            exact absurd (h2 sN rfl) hsN
        · intro s hs hne
          exact Option.noConfusion hs
        · intro s hd hs hne
          rw [← Option.some.inj hs]
          exact hgi
  · by_cases hsO : sO = ""
    · subst hsO
      rcases hN : annLookup e NEW_JENKINS_ANN with _ | sN
      · have hv : getEntityAnnotationValue e = none := by
          simp [getEntityAnnotationValue, jsOrStr, hO, hN]
        have herr2 : getInstance catalog rc ref jobOpt = .error (.AnnotationMissing ref) := by
          simp [getInstance, hcat, hv]
        refine ⟨?_, ?_, ?_⟩
        · constructor
          · intro _
            exact ⟨fun s hs => (Option.some.inj hs).symm,
                   fun s hs => Option.noConfusion hs⟩
          · intro _
            exact herr2
        · intro s hs hne
          exact absurd (Option.some.inj hs).symm hne
        · intro s hd hs hne
          exact Option.noConfusion hs
      · by_cases hsN : sN = ""
        · subst hsN
          have hv : getEntityAnnotationValue e = some "" := by
            simp [getEntityAnnotationValue, jsOrStr, hO, hN]
          have herr2 : getInstance catalog rc ref jobOpt = .error (.AnnotationMissing ref) := by
            simp [getInstance, hcat, hv]
          refine ⟨?_, ?_, ?_⟩
          · constructor
            · intro _
              exact ⟨fun s hs => (Option.some.inj hs).symm,
                     fun s hs => (Option.some.inj hs).symm⟩
            · intro _
              exact herr2
          · intro s hs hne
            exact absurd (Option.some.inj hs).symm hne
          · intro s hd hs hne
            exact absurd (Option.some.inj hs).symm hne
        · have hv : getEntityAnnotationValue e = some sN := by
            simp [getEntityAnnotationValue, jsOrStr, hO, hN]
          have hgi : getInstance catalog rc ref jobOpt = resolveFromValue rc sN := by
            simp [getInstance, hcat, hv, hsN]
          refine ⟨?_, ?_, ?_⟩
          · constructor
            · intro herr
              rw [hgi] at herr
              exact absurd herr (resolveFromValue_ne_annMissing rc sN ref)
            · rintro ⟨-, h2⟩
              exact absurd (h2 sN rfl) hsN
          · intro s hs hne
            exact absurd (Option.some.inj hs).symm hne
          · intro s hd hs hne
            rw [← Option.some.inj hs]
            exact hgi
    · have hv : getEntityAnnotationValue e = some sO := by
        simp [getEntityAnnotationValue, jsOrStr, hO, hsO]
      have hgi : getInstance catalog rc ref jobOpt = resolveFromValue rc sO := by
        simp [getInstance, hcat, hv, hsO]
      refine ⟨?_, ?_, ?_⟩
      · constructor
        · intro herr
          rw [hgi] at herr
          exact absurd herr (resolveFromValue_ne_annMissing rc sO ref)
        · rintro ⟨h1, -⟩
          exact absurd (h1 sO rfl) hsO
      · intro s hs hne
        rw [← Option.some.inj hs]
        exact hgi
      · intro s hd hs hne
        rcases hd with hd | hd
        · exact Option.noConfusion hd
        · exact absurd (Option.some.inj hd) hsO

/-- Witness for C3: an entity with a non-empty legacy value is resolved
from that value. -/
theorem C3_annotation_missing_iff_witness :
    (catBoth "r" = some entBoth) ∧
    getInstance catBoth rcC1w "r" none = resolveFromValue rcC1w "o:j" := by
  refine ⟨rfl, ?_⟩
  exact (C3_annotation_missing_iff catBoth rcC1w "r" none entBoth rfl).2.1
    "o:j" (by decide) (by decide)

/-- Counterexample for C3 as stated: the legacy key is present (mapped to
the empty string), yet the call fails with `AnnotationMissing`, because the
JavaScript truthiness check treats the empty value as missing. -/
theorem C3_annotation_missing_iff_counterexample :
    (annLookup entOldEmpty OLD_JENKINS_ANN = some "") ∧
    getInstance catOldEmpty rcC1w "r" none = .error (.AnnotationMissing "r") := by
  refine ⟨by decide, by decide⟩

/-- Claim C6 (amended): when both annotation keys are present, the value
selected for parsing is the legacy key's value if that value is non-empty,
and the current key's value otherwise (the JavaScript `||` skips a falsy
legacy value). -/
theorem C6_legacy_precedence (e : Entity) (vOld vNew : String)
    (hO : annLookup e OLD_JENKINS_ANN = some vOld)
    (hN : annLookup e NEW_JENKINS_ANN = some vNew) :
    getEntityAnnotationValue e = some (if vOld = "" then vNew else vOld) := by
  by_cases h : vOld = ""
  · simp [getEntityAnnotationValue, jsOrStr, hO, hN, h]
  · simp [getEntityAnnotationValue, jsOrStr, hO, hN, h]

/-- Witness for C6: both keys present with non-empty legacy value; the
legacy value is selected. -/
theorem C6_legacy_precedence_witness :
    (annLookup entBoth OLD_JENKINS_ANN = some "o:j") ∧
    (annLookup entBoth NEW_JENKINS_ANN = some "n:j") ∧
    getEntityAnnotationValue entBoth = some (if "o:j" = "" then "n:j" else "o:j") := by
  refine ⟨by decide, by decide, ?_⟩
  exact C6_legacy_precedence entBoth "o:j" "n:j" (by decide) (by decide)

/-- Counterexample for C6 as stated: both keys present, but the legacy
value is the empty string, so the current value `"n:j"` — not the legacy
value — is the one selected for parsing. -/
theorem C6_legacy_precedence_counterexample :
    (annLookup entOldEmptyBoth OLD_JENKINS_ANN = some "") ∧
    (annLookup entOldEmptyBoth NEW_JENKINS_ANN = some "n:j") ∧
    getEntityAnnotationValue entOldEmptyBoth = some "n:j" ∧
    ("n:j" : String) ≠ "" := by
  refine ⟨by decide, by decide, by decide, by decide⟩

/-- Claim C7 (amended): on every call reaching instance resolution exactly
one of the two lookup branches runs; the named-instance branch runs exactly
when the annotation value has a colon-delimited prefix that is non-empty
and different from `"default"` — a value such as `":job"` or
`"default:job"` has a colon yet takes the default branch. -/
theorem C7_path_selection (v : String) (rc : RootConfig) (j : JenkinsNode)
    (hj : rc.jenkins = some j) :
    ((takesNamedPath (parseAnnotationValue v).1 = true ∧
      getInstanceConfig (parseAnnotationValue v).1 rc =
        namedInstanceLookup ((parseAnnotationValue v).1.getD "") j) ∨
     (takesNamedPath (parseAnnotationValue v).1 = false ∧
      getInstanceConfig (parseAnnotationValue v).1 rc = defaultInstanceLookup j)) ∧
    (takesNamedPath (parseAnnotationValue v).1 = true ↔
      ∃ pre post, splitFirstColon v.data = some (pre, post) ∧
        pre ≠ [] ∧ String.mk pre ≠ "default") := by
  constructor
  · cases hp : (parseAnnotationValue v).1 with
    | none =>
      right
      refine ⟨rfl, ?_⟩
      simp [getInstanceConfig, hj]
    | some n =>
      by_cases hn : n = "" ∨ n = "default"
      · right
        constructor
        · rcases hn with rfl | rfl <;> simp [takesNamedPath]
        · simp only [getInstanceConfig, hj]
          rw [if_pos hn]
      · left
        constructor
        · rw [not_or] at hn
          simp [takesNamedPath, hn.1, hn.2]
        · simp only [getInstanceConfig, hj, Option.getD_some]
          rw [if_neg hn]
  · cases hsp : splitFirstColon v.data with
    | none =>
      simp [parseAnnotationValue, hsp, takesNamedPath]
    | some p =>
      obtain ⟨pre, post⟩ := p
      have hp1 : (parseAnnotationValue v).1 = some (String.mk pre) := by
        simp [parseAnnotationValue, hsp]
      rw [hp1]
      constructor
      · intro h
        simp only [takesNamedPath, Bool.not_eq_eq_eq_not, Bool.not_true,
          Bool.or_eq_false_iff, beq_eq_false_iff_ne, ne_eq] at h
        refine ⟨pre, post, rfl, ?_, h.2⟩
        intro hpre
        subst hpre
        exact h.1 rfl
      · rintro ⟨pre2, post2, heq, hne, hnd⟩
        injection heq with heq2
        have hpp : pre = pre2 := congrArg Prod.fst heq2
        subst hpp
        have hmkne : String.mk pre ≠ "" := by
          intro hmk
          exact hne (congrArg String.data hmk)
        simp [takesNamedPath, hmkne, hnd]

/-- Witness for C7 at the value `"x:job"`, whose prefix `"x"` selects the
named branch. -/
theorem C7_path_selection_witness :
    (rcC2w.jenkins = some jnC2w) ∧
    (((takesNamedPath (parseAnnotationValue "x:job").1 = true ∧
      getInstanceConfig (parseAnnotationValue "x:job").1 rcC2w =
        namedInstanceLookup ((parseAnnotationValue "x:job").1.getD "") jnC2w) ∨
     (takesNamedPath (parseAnnotationValue "x:job").1 = false ∧
      getInstanceConfig (parseAnnotationValue "x:job").1 rcC2w =
        defaultInstanceLookup jnC2w)) ∧
    (takesNamedPath (parseAnnotationValue "x:job").1 = true ↔
      ∃ pre post, splitFirstColon "x:job".data = some (pre, post) ∧
        pre ≠ [] ∧ String.mk pre ≠ "default")) :=
  ⟨rfl, C7_path_selection "x:job" rcC2w jnC2w rfl⟩

/-- Counterexample for C7 as stated: `"default:job"` contains a colon, yet
the default-instance branch is taken — with a flat-only config the call
succeeds with the flat node, while the named branch would have failed. -/
theorem C7_path_selection_counterexample :
    (':' ∈ "default:job".data) ∧
    takesNamedPath (parseAnnotationValue "default:job").1 = false ∧
    getInstanceConfig (parseAnnotationValue "default:job").1 rcFlat =
      .ok jnFlat.node ∧
    namedInstanceLookup "default" jnFlat =
      .error (.NamedInstanceNotFound "default") := by
  refine ⟨by decide, by decide, by decide, by decide⟩

/-- Claim C8: the `jobName` option of `getInstance` is never used — two
calls differing only in that option return the same result, and the job
name of a successful result always comes from the entity annotation. -/
theorem C8_jobname_option_unused (catalog : String → Option Entity)
    (rc : RootConfig) (ref : String) (j1 j2 : Option String) :
    getInstance catalog rc ref j1 = getInstance catalog rc ref j2 ∧
    (∀ info, getInstance catalog rc ref j1 = .ok info →
      some info.jobName = annotationJobName catalog ref) := by
  refine ⟨rfl, ?_⟩
  intro info hok
  cases hcat : catalog ref with
  | none => simp [getInstance, hcat] at hok
  | some e =>
    cases hv : getEntityAnnotationValue e with
    | none => simp [getInstance, hcat, hv] at hok
    | some v =>
      by_cases hve : v = ""
      · simp [getInstance, hcat, hv, hve] at hok
      · have hok2 : resolveFromValue rc v = .ok info := by
          rw [← hok]
          simp [getInstance, hcat, hv, hve]
        have hjob := resolveFromValue_ok_jobName rc v info hok2
        simp [annotationJobName, hcat, hv, hve, hjob]

/-- Witness for C8: a successful concrete call; the result is the same for
two different `jobName` options and its job name equals the annotation
value. -/
theorem C8_jobname_option_unused_witness :
    (getInstance catJobOnly rcC1w "r" none =
      getInstance catJobOnly rcC1w "r" (some "other")) ∧
    some "somejob" = annotationJobName catJobOnly "r" := by
  constructor
  · exact (C8_jobname_option_unused catJobOnly rcC1w "r" none (some "other")).1
  · have h := (C8_jobname_option_unused catJobOnly rcC1w "r" none (some "other")).2
      { baseUrl := "https://d/",
        headers := [("Authorization", "Basic " ++ basicCreds "du" "dk")],
        jobName := "somejob" } (by decide)
    exact h

/-! ## Base64 and binary-encoding lemmas -/

theorem b64_digit_facts :
    ∀ n : Fin 64, b64v (b64c n.val) = n.val ∧ b64c n.val ≠ '=' := by decide

theorem b64v_b64c (n : Nat) (h : n < 64) : b64v (b64c n) = n :=
  (b64_digit_facts ⟨n, h⟩).1

theorem b64c_ne_pad (n : Nat) (h : n < 64) : b64c n ≠ '=' :=
  (b64_digit_facts ⟨n, h⟩).2

theorem base64_decode_encode : ∀ l : List Nat, (∀ x ∈ l, x < 256) →
    base64Decode (base64Encode l) = l
  | [], _ => rfl
  | [a], h => by
    have ha : a < 256 := h a (by simp)
    have h1 : a / 4 < 64 := by omega
    have h2 : a % 4 * 16 < 64 := by omega
    simp only [base64Encode, base64Decode, if_true]
    have e1 : b64v (b64c (a / 4)) * 4 + b64v (b64c (a % 4 * 16)) / 16 = a := by
      rw [b64v_b64c _ h1, b64v_b64c _ h2]
      omega
    rw [e1]
  | [a, b], h => by
    have ha : a < 256 := h a (by simp)
    have hb : b < 256 := h b (by simp)
    have h1 : a / 4 < 64 := by omega
    have h2 : a % 4 * 16 + b / 16 < 64 := by omega
    have h3 : b % 16 * 4 < 64 := by omega
    simp only [base64Encode, base64Decode, if_true]
    rw [if_neg (b64c_ne_pad _ h3)]
    have e1 : b64v (b64c (a / 4)) * 4
        + b64v (b64c (a % 4 * 16 + b / 16)) / 16 = a := by
      rw [b64v_b64c _ h1, b64v_b64c _ h2]
      omega
    have e2 : b64v (b64c (a % 4 * 16 + b / 16)) % 16 * 16
        + b64v (b64c (b % 16 * 4)) / 4 = b := by
      rw [b64v_b64c _ h2, b64v_b64c _ h3]
      omega
    rw [e1, e2]
  | a :: b :: c :: rest, h => by
    have ha : a < 256 := h a (by simp)
    have hb : b < 256 := h b (by simp)
    have hc : c < 256 := h c (by simp)
    have h1 : a / 4 < 64 := by omega
    have h2 : a % 4 * 16 + b / 16 < 64 := by omega
    have h3 : b % 16 * 4 + c / 64 < 64 := by omega
    have h4 : c % 64 < 64 := by omega
    have ih := base64_decode_encode rest (fun x hx => h x (by simp [hx]))
    simp only [base64Encode, base64Decode]
    rw [if_neg (b64c_ne_pad _ h3), if_neg (b64c_ne_pad _ h4)]
    have e1 : b64v (b64c (a / 4)) * 4
        + b64v (b64c (a % 4 * 16 + b / 16)) / 16 = a := by
      rw [b64v_b64c _ h1, b64v_b64c _ h2]
      omega
    have e2 : b64v (b64c (a % 4 * 16 + b / 16)) % 16 * 16
        + b64v (b64c (b % 16 * 4 + c / 64)) / 4 = b := by
      rw [b64v_b64c _ h2, b64v_b64c _ h3]
      omega
    have e3 : b64v (b64c (b % 16 * 4 + c / 64)) % 4 * 64
        + b64v (b64c (c % 64)) = c := by
      rw [b64v_b64c _ h3, b64v_b64c _ h4]
      omega
    rw [e1, e2, e3, ih]

theorem binaryBytes_lt (s : String) : ∀ x ∈ binaryBytes s, x < 256 := by
  intro x hx
  simp only [binaryBytes, List.mem_map] at hx
  obtain ⟨c, hc, rfl⟩ := hx
  exact Nat.mod_lt _ (by norm_num)

theorem binaryBytes_append (a b : String) :
    binaryBytes (a ++ b) = binaryBytes a ++ binaryBytes b := by
  simp [binaryBytes, String.data_append]

theorem char_eq_colon (c : Char) (h : c.toNat = 58) : c = ':' := by
  have h2 := Char.ofNat_toNat c
  rw [h] at h2
  rw [← h2]

theorem latin1Decode_binaryBytes (s : String)
    (h : ∀ c ∈ s.data, c.toNat < 256) : latin1Decode (binaryBytes s) = s := by
  unfold latin1Decode binaryBytes
  rw [List.map_map]
  have hmap : s.data.map (Char.ofNat ∘ fun c => c.toNat % 256) = s.data := by
    have hcong : ∀ c ∈ s.data, (Char.ofNat ∘ fun c => c.toNat % 256) c = id c := by
      intro c hc
      simp only [Function.comp, id]
      rw [Nat.mod_eq_of_lt (h c hc), Char.ofNat_toNat]
    rw [List.map_congr_left hcong, List.map_id]
  rw [hmap]

theorem takeWhile_append_all {α : Type} (p : α → Bool) (l1 l2 : List α)
    (h : ∀ x ∈ l1, p x = true) :
    (l1 ++ l2).takeWhile p = l1 ++ l2.takeWhile p := by
  induction l1 with
  | nil => simp
  | cons a l ih =>
    have ha := h a (List.mem_cons_self a l)
    simp [List.takeWhile_cons, ha,
      ih (fun x hx => h x (List.mem_cons_of_mem a hx))]

theorem dropWhile_append_all {α : Type} (p : α → Bool) (l1 l2 : List α)
    (h : ∀ x ∈ l1, p x = true) :
    (l1 ++ l2).dropWhile p = l2.dropWhile p := by
  induction l1 with
  | nil => simp
  | cons a l ih =>
    have ha := h a (List.mem_cons_self a l)
    simp [List.dropWhile_cons, ha,
      ih (fun x hx => h x (List.mem_cons_of_mem a hx))]

theorem resolveFromValue_ok_headers (rc : RootConfig) (v : String)
    (info : JenkinsInfo) (h : resolveFromValue rc v = .ok info) :
    ∃ node u k,
      getInstanceConfig (parseAnnotationValue v).1 rc = .ok node ∧
      getStr "username" node.username = .ok u ∧
      getStr "apiKey" node.apiKey = .ok k ∧ u ≠ "" ∧ k ≠ "" ∧
      info.headers = [("Authorization", "Basic " ++ basicCreds u k)] := by
  unfold resolveFromValue at h
  simp only [] at h
  cases hg : getInstanceConfig (parseAnnotationValue v).1 rc with
  | error e =>
    rw [hg] at h
    exact Except.noConfusion h
  | ok node =>
    rw [hg] at h
    simp only [] at h
    cases h1 : getStr "baseUrl" node.baseUrl with
    | error e1 =>
      rw [h1] at h
      exact Except.noConfusion h
    | ok b =>
      rw [h1] at h
      cases h2 : getStr "username" node.username with
      | error e2 =>
        rw [h2] at h
        exact Except.noConfusion h
      | ok u =>
        rw [h2] at h
        cases h3 : getStr "apiKey" node.apiKey with
        | error e3 =>
          rw [h3] at h
          exact Except.noConfusion h
        | ok k =>
          rw [h3] at h
          injection h with h4
          refine ⟨node, u, k, rfl, h2, h3,
            (getStr_ok _ _ _ h2).2, (getStr_ok _ _ _ h3).2, ?_⟩
          rw [← h4]

/-- Claim C4 (amended): every successful call carries an `Authorization`
header equal to `"Basic "` followed by the base64 of the raw 8-bit bytes
of `username ++ ":" ++ apiKey`, where `username`/`apiKey` are the resolved
(non-empty) credentials; and for all non-empty `username` and `apiKey`
made of 8-bit characters where `username` contains no colon,
base64-decoding the suffix and splitting at the first colon byte recovers
`username` and `apiKey`. -/
theorem C4_basic_auth_round_trip :
    (∀ (catalog : String → Option Entity) (rc : RootConfig) (ref : String)
        (jobOpt : Option String) (info : JenkinsInfo),
      getInstance catalog rc ref jobOpt = .ok info →
      ∃ v node u k,
        getInstanceConfig (parseAnnotationValue v).1 rc = .ok node ∧
        getStr "username" node.username = .ok u ∧
        getStr "apiKey" node.apiKey = .ok k ∧ u ≠ "" ∧ k ≠ "" ∧
        info.headers = [("Authorization", "Basic " ++ basicCreds u k)]) ∧
    (∀ u k : String, u ≠ "" → k ≠ "" →
      (∀ c ∈ u.data, c.toNat < 256) → (∀ c ∈ k.data, c.toNat < 256) →
      ':' ∉ u.data →
      recoverFromCreds (basicCreds u k) = (u, k)) := by
  constructor
  · intro catalog rc ref jobOpt info hok
    cases hcat : catalog ref with
    | none => simp [getInstance, hcat] at hok
    | some e =>
      cases hv : getEntityAnnotationValue e with
      | none => simp [getInstance, hcat, hv] at hok
      | some v =>
        by_cases hve : v = ""
        · simp [getInstance, hcat, hv, hve] at hok
        · have hok2 : resolveFromValue rc v = .ok info := by
            rw [← hok]
            simp [getInstance, hcat, hv, hve]
          obtain ⟨node, u, k, hrest⟩ := resolveFromValue_ok_headers rc v info hok2
          exact ⟨v, node, u, k, hrest⟩
  · intro u k hu hk hcu hck hnc
    have hbu_ne : ∀ x ∈ binaryBytes u, (x != 58) = true := by
      intro x hx
      simp only [binaryBytes, List.mem_map] at hx
      obtain ⟨c, hc, rfl⟩ := hx
      rw [Nat.mod_eq_of_lt (hcu c hc)]
      simp only [bne_iff_ne, ne_eq]
      intro h58
      rw [char_eq_colon c h58] at hc
      exact hnc hc
    have hsplit : binaryBytes (u ++ ":" ++ k)
        = binaryBytes u ++ 58 :: binaryBytes k := by
      rw [binaryBytes_append, binaryBytes_append, List.append_assoc]
      rfl
    simp only [recoverFromCreds, basicCreds]
    rw [base64_decode_encode _ (binaryBytes_lt _), hsplit]
    rw [takeWhile_append_all _ _ _ hbu_ne, dropWhile_append_all _ _ _ hbu_ne]
    simp only [List.takeWhile_cons, List.dropWhile_cons, bne_self_eq_false,
      Bool.false_eq_true, if_false, List.append_nil, List.tail_cons]
    rw [latin1Decode_binaryBytes u hcu, latin1Decode_binaryBytes k hck]

/-- Witness for C4: a successful concrete call exposing the header shape,
and a concrete round trip. -/
theorem C4_basic_auth_round_trip_witness :
    (∃ v node u k,
      getInstanceConfig (parseAnnotationValue v).1 rcC1w = .ok node ∧
      getStr "username" node.username = .ok u ∧
      getStr "apiKey" node.apiKey = .ok k ∧ u ≠ "" ∧ k ≠ "" ∧
      (JenkinsInfo.mk "https://d/"
        [("Authorization", "Basic " ++ basicCreds "du" "dk")]
        "somejob").headers
        = [("Authorization", "Basic " ++ basicCreds u k)]) ∧
    recoverFromCreds (basicCreds "user" "key7") = ("user", "key7") := by
  constructor
  · exact C4_basic_auth_round_trip.1 catJobOnly rcC1w "r" none
      (JenkinsInfo.mk "https://d/"
        [("Authorization", "Basic " ++ basicCreds "du" "dk")] "somejob")
      (by decide)
  · exact C4_basic_auth_round_trip.2 "user" "key7" (by decide) (by decide)
      (by decide) (by decide) (by decide)

/-- Counterexample for C4 as stated: with the resolved username `"a:b"`
(which contains a colon) the call succeeds, but decoding the credentials
and splitting at the first colon yields `("a", "b:k")`, not the original
`("a:b", "k")`. -/
theorem C4_basic_auth_round_trip_counterexample :
    getInstance catJobOnly rcC4 "r" none = .ok
      (JenkinsInfo.mk "https://c4/"
        [("Authorization", "Basic " ++ basicCreds "a:b" "k")] "somejob") ∧
    recoverFromCreds (basicCreds "a:b" "k") = ("a", "b:k") ∧
    ("a", "b:k") ≠ ("a:b", "k") := by
  refine ⟨by decide, by decide, by decide⟩

end Jenkins
